import Mathlib

/-
  Verification of the layer compositing and editing engine of the
  magiclens-ai image editor.

  The engine lives in src/App.tsx (layer/document model, bounded history,
  transform operations, compositor) and in the variant source files
  src/unnamed/part_001 and src/unnamed/part_002 (which additionally hold the
  brush-symmetry and clone-stamp code).  The definitions below are a shallow
  embedding of those functions:

  * pixel buffers (HTMLCanvasElement contents) become `Surface`: a width, a
    height and a row-major list of RGBA pixels with rational channels;
  * the React state variables (`layers`, `activeLayerId`, `canvasSize`,
    `history`, `historyStep`) become the fields of `EditorState`;
  * each event handler becomes a pure state-transition function of the same
    name;
  * the browser-built-in compositing primitive (drawImage under globalAlpha
    and globalCompositeOperation) is external to the repository, so the
    compositor is parameterised by the per-pixel blend primitive `bf`; a
    concrete source-over instance is provided for evaluation;
  * JavaScript numbers are modelled as rationals (reals for the
    trigonometric symmetry code), Math.round as round-half-up, and the
    HTMLCanvasElement dimension coercion as reduction modulo 2^32.
-/

namespace MagicLens

/-- An RGBA pixel with rational channels (JS numbers modelled as rationals). -/
structure Pixel where
  r : ℚ
  g : ℚ
  b : ℚ
  a : ℚ
deriving DecidableEq

/-- The fully transparent pixel: the content of a freshly allocated canvas. -/
def transparent : Pixel := ⟨0, 0, 0, 0⟩

/-- A pixel buffer: width, height and a row-major pixel list.  Models the
contents of an HTMLCanvasElement owned by a layer. -/
structure Surface where
  width : ℕ
  height : ℕ
  data : List Pixel
deriving DecidableEq

/-- Reading a pixel: in-bounds coordinates index the row-major list,
out-of-bounds reads yield transparent (canvas reads outside the bitmap
contribute nothing). -/
def Surface.getPixel (s : Surface) (x y : ℤ) : Pixel :=
  if 0 ≤ x ∧ x < (s.width : ℤ) ∧ 0 ≤ y ∧ y < (s.height : ℤ) then
    s.data.getD (y.toNat * s.width + x.toNat) transparent
  else transparent

/-- The closed set of layer blend modes, from the BLEND_MODES table in
src/App.tsx. -/
inductive BlendMode where
  | sourceOver
  | multiply
  | screen
  | overlay
  | darken
  | lighten
  | colorDodge
  | colorBurn
  | hardLight
  | softLight
  | difference
  | exclusion
  | hue
  | saturation
  | color
  | luminosity
deriving DecidableEq

/-- A layer, as in the Layer interface of src/types.ts.  The random string
id of createLayer is modelled by a natural number drawn fresh from the
state's id counter. -/
structure Layer where
  id : ℕ
  name : String
  visible : Bool
  opacity : ℚ
  blendMode : BlendMode
  canvas : Surface
deriving DecidableEq

/-- A deep per-layer snapshot, as in the LayerSnapshot interface of
src/types.ts: the imageData field is the full pixel copy taken by
getImageData. -/
structure LayerSnapshot where
  id : ℕ
  name : String
  visible : Bool
  opacity : ℚ
  blendMode : BlendMode
  imageData : Surface
deriving DecidableEq

/-- A history entry: the per-layer snapshots plus the canvas size, as in
the HistoryState built by saveHistory in src/App.tsx. -/
structure HistoryState where
  layers : List LayerSnapshot
  size : ℕ × ℕ
deriving DecidableEq

/-- A crop rectangle as held in the cropRect state of src/App.tsx. -/
structure CropRect where
  x : ℚ
  y : ℚ
  w : ℚ
  h : ℚ
deriving DecidableEq

/-- The editor's document-model state: the React state variables layers,
activeLayerId, canvasSize, history and historyStep of src/App.tsx, plus a
counter supplying the fresh layer ids that createLayer draws from
Math.random.  historyStep is a natural number: reachable states (after
initEditorWithImage has run) always have a valid step. -/
structure EditorState where
  layers : List Layer
  activeLayerId : Option ℕ
  canvasSize : ℕ × ℕ
  history : List HistoryState
  historyStep : ℕ
  nextId : ℕ
deriving DecidableEq

/-- JavaScript Math.round: round half up. -/
def jsRound (q : ℚ) : ℤ := ⌊q + 1 / 2⌋

/-- Assigning a number to HTMLCanvasElement.width/height coerces it with
ToUint32 (reduction modulo 2^32). -/
def toUint32 (z : ℤ) : ℕ := (z % 4294967296).toNat

/-- createLayer from src/App.tsx: a fresh, visible, fully transparent layer
with opacity 1 and normal blend mode, whose canvas has the given size. -/
def createLayer (i : ℕ) (name : String) (w h : ℕ) : Layer :=
  ⟨i, name, true, 1, BlendMode.sourceOver, ⟨w, h, List.replicate (w * h) transparent⟩⟩

/-- The per-layer snapshot taken inside saveHistory (src/App.tsx lines
562-572): all metadata plus a full pixel copy of the layer's canvas. -/
def snapLayer (l : Layer) : LayerSnapshot :=
  ⟨l.id, l.name, l.visible, l.opacity, l.blendMode, l.canvas⟩

/-- Rebuilding one layer from its snapshot, as in restoreHistoryStep
(src/App.tsx lines 619-634): createLayer followed by overwriting id, name,
visibility, opacity, blend mode, and putImageData of the saved pixels (the
canvas is resized to the imageData dimensions when they differ, so the
restored canvas is exactly the snapshot's pixel copy). -/
def restoreLayer (ls : LayerSnapshot) : Layer :=
  ⟨ls.id, ls.name, ls.visible, ls.opacity, ls.blendMode, ls.imageData⟩

/-- saveHistory from src/App.tsx lines 560-589: snapshot the given layers
and canvas size, truncate the redo branch (slice up to historyStep + 1),
push, and either evict the oldest entry when the bound of 10 is exceeded
(leaving the step pointer alone) or advance the step pointer. -/
def saveHistory (s : EditorState) (L : List Layer) (w h : ℕ) : EditorState :=
  let hs : HistoryState := ⟨L.map snapLayer, (w, h)⟩
  let newHistory := s.history.take (s.historyStep + 1) ++ [hs]
  if 10 < newHistory.length then
    { s with history := newHistory.drop 1 }
  else
    { s with history := newHistory, historyStep := s.historyStep + 1 }

/-- The common tail of every snapshotting edit handler in src/App.tsx:
setLayers / setCanvasSize / setActiveLayerId followed by saveHistory on the
new layer list.  Handlers that do not change the canvas size or the active
layer pass the current values through. -/
def commitEdit (s : EditorState) (L : List Layer) (w h : ℕ) (act : Option ℕ)
    (n : ℕ) : EditorState :=
  { saveHistory s L w h with
      layers := L, canvasSize := (w, h), activeLayerId := act, nextId := n }

/-- restoreHistoryStep from src/App.tsx lines 607-641: look up the history
entry, restore the canvas size, rebuild every layer from its snapshot, and
re-target the active layer to the new topmost when the current active id is
absent from the restored set. -/
def restoreHistoryStep (s : EditorState) (stepIndex : ℕ) : EditorState :=
  match s.history.get? stepIndex with
  | none => s
  | some st =>
      let restored := st.layers.map restoreLayer
      { s with
          canvasSize := st.size
          layers := restored
          activeLayerId :=
            if restored.any (fun l => s.activeLayerId == some l.id) then
              s.activeLayerId
            else
              match restored.getLast? with
              | some l => some l.id
              | none => s.activeLayerId }

/-- handleUndo from src/App.tsx: when historyStep is positive, restore the
previous entry and decrement the step pointer; otherwise a no-op. -/
def handleUndo (s : EditorState) : EditorState :=
  if 0 < s.historyStep then
    { restoreHistoryStep s (s.historyStep - 1) with historyStep := s.historyStep - 1 }
  else s

/-- handleRedo from src/App.tsx: when historyStep is below the last index,
restore the next entry and increment the step pointer; otherwise a no-op.
The JS guard historyStep < history.length - 1 is written step + 1 < length
to avoid truncated subtraction; the two agree on all natural lengths. -/
def handleRedo (s : EditorState) : EditorState :=
  if s.historyStep + 1 < s.history.length then
    { restoreHistoryStep s (s.historyStep + 1) with historyStep := s.historyStep + 1 }
  else s

/-- handleLayerOpacityChange from src/App.tsx lines 644-647: store the given
opacity value on the matching layer.  No clamping is performed. -/
def handleLayerOpacityChange (s : EditorState) (i : ℕ) (v : ℚ) : EditorState :=
  { s with layers := s.layers.map fun l => if l.id == i then { l with opacity := v } else l }

/-- handleLayerOpacityCommit from src/App.tsx lines 649-652: the same update
followed by a history snapshot (the slider's release handler). -/
def handleLayerOpacityCommit (s : EditorState) (i : ℕ) (v : ℚ) : EditorState :=
  let L := s.layers.map fun l => if l.id == i then { l with opacity := v } else l
  commitEdit s L s.canvasSize.1 s.canvasSize.2 s.activeLayerId s.nextId

/-- handleLayerBlendChange from src/App.tsx lines 654-660. -/
def handleLayerBlendChange (s : EditorState) (i : ℕ) (m : BlendMode) : EditorState :=
  let L := s.layers.map fun l => if l.id == i then { l with blendMode := m } else l
  commitEdit s L s.canvasSize.1 s.canvasSize.2 s.activeLayerId s.nextId

/-- handleToggleVisibility from src/App.tsx lines 1201-1205. -/
def handleToggleVisibility (s : EditorState) (i : ℕ) : EditorState :=
  let L := s.layers.map fun l => if l.id == i then { l with visible := !l.visible } else l
  commitEdit s L s.canvasSize.1 s.canvasSize.2 s.activeLayerId s.nextId

/-- handleAddLayer from src/App.tsx lines 1182-1189: append a fresh
transparent layer sized to the canvas, make it active, snapshot. -/
def handleAddLayer (s : EditorState) : EditorState :=
  let nl := createLayer s.nextId ("Layer " ++ toString (s.layers.length + 1))
      s.canvasSize.1 s.canvasSize.2
  commitEdit s (s.layers ++ [nl]) s.canvasSize.1 s.canvasSize.2 (some nl.id) (s.nextId + 1)

/-- handleAddImageLayer / handleApplyResult from src/App.tsx (lines 383-412
and 1260-1287): append a fresh layer sized to the canvas into which the
decoded image has been drawn (fit, centered), make it active, snapshot.
The drawn content is the data parameter; its dimensions are the canvas
dimensions by construction of createLayer. -/
def handleInstallImageLayer (s : EditorState) (name : String) (d : List Pixel) :
    EditorState :=
  let nl : Layer := { createLayer s.nextId name s.canvasSize.1 s.canvasSize.2 with
      canvas := ⟨s.canvasSize.1, s.canvasSize.2, d⟩ }
  commitEdit s (s.layers ++ [nl]) s.canvasSize.1 s.canvasSize.2 (some nl.id) (s.nextId + 1)

/-- handleDeleteLayer from src/App.tsx lines 1191-1199: refuse when at most
one layer remains; otherwise drop the matching layer, re-target the active
layer to the new topmost when the deleted one was active, snapshot. -/
def handleDeleteLayer (s : EditorState) (i : ℕ) : EditorState :=
  if s.layers.length ≤ 1 then s
  else
    let L := s.layers.filter fun l => l.id != i
    let act :=
      if s.activeLayerId == some i then
        match L.getLast? with
        | some l => some l.id
        | none => none
      else s.activeLayerId
    commitEdit s L s.canvasSize.1 s.canvasSize.2 act s.nextId

/-- handleMoveLayer (direction up) from src/App.tsx lines 1207-1212: swap
the layer with its upper neighbour. -/
def handleMoveLayerUp (s : EditorState) (index : ℕ) : EditorState :=
  if h : index + 1 < s.layers.length then
    let a := s.layers.get ⟨index, Nat.lt_of_succ_lt h⟩
    let b := s.layers.get ⟨index + 1, h⟩
    let L := (s.layers.set index b).set (index + 1) a
    commitEdit s L s.canvasSize.1 s.canvasSize.2 s.activeLayerId s.nextId
  else s

/-- handleMoveLayer (direction down) from src/App.tsx lines 1213-1218. -/
def handleMoveLayerDown (s : EditorState) (index : ℕ) : EditorState :=
  if h : 0 < index ∧ index < s.layers.length then
    let a := s.layers.get ⟨index, h.2⟩
    let b := s.layers.get ⟨index - 1, Nat.lt_of_le_of_lt (Nat.sub_le index 1) h.2⟩
    let L := (s.layers.set index b).set (index - 1) a
    commitEdit s L s.canvasSize.1 s.canvasSize.2 s.activeLayerId s.nextId
  else s

/-- handleClearLayer from src/App.tsx lines 1221-1229: clearRect over the
active layer's whole canvas, then snapshot. -/
def handleClearLayer (s : EditorState) : EditorState :=
  match s.activeLayerId with
  | none => s
  | some i =>
      if s.layers.any (fun l => l.id == i) then
        let L := s.layers.map fun l =>
          if l.id == i then
            { l with canvas := ⟨l.canvas.width, l.canvas.height,
                List.replicate (l.canvas.width * l.canvas.height) transparent⟩ }
          else l
        commitEdit s L s.canvasSize.1 s.canvasSize.2 s.activeLayerId s.nextId
      else s

/-- One completed brush gesture, at the granularity the specification uses
(pointer-down through pointer-up): painting mutates the active layer's
pixel data in place without touching its dimensions, and handlePointerUp
(src/App.tsx lines 1052-1075) ends with saveHistory.  The gesture requires
a visible active layer (the guard in the pointer-down handler); the new
pixel data of the active layer is the d parameter. -/
def handleStroke (s : EditorState) (d : List Pixel) : EditorState :=
  match s.activeLayerId with
  | none => s
  | some i =>
      if s.layers.any (fun l => l.id == i && l.visible) then
        let L := s.layers.map fun l =>
          if l.id == i then { l with canvas := ⟨l.canvas.width, l.canvas.height, d⟩ }
          else l
        commitEdit s L s.canvasSize.1 s.canvasSize.2 s.activeLayerId s.nextId
      else s

/-- The pixel content of one layer after the 90-degree canvas rotation of
handleRotateCanvas (src/App.tsx lines 1079-1106): the new surface has the
swapped dimensions and is the old surface drawn rotated about the new
center.  For the plus-90 (clockwise) call the destination pixel (i, j)
reads the source pixel (j, oldHeight - 1 - i); for minus-90 it reads
(oldWidth - 1 - j, i). -/
def rotateSurf (cw : Bool) (src : Surface) : Surface :=
  let nw := src.height
  let nh := src.width
  ⟨nw, nh, (List.range (nh * nw)).map fun k =>
    let i : ℤ := (k % nw : ℕ)
    let j : ℤ := (k / nw : ℕ)
    if cw then src.getPixel j ((src.height : ℤ) - 1 - i)
    else src.getPixel ((src.width : ℤ) - 1 - j) i⟩

/-- handleRotateCanvas from src/App.tsx lines 1079-1106: swap the canvas
dimensions, rewrite every layer rotated, snapshot. -/
def handleRotateCanvas (s : EditorState) (cw : Bool) : EditorState :=
  let nw := s.canvasSize.2
  let nh := s.canvasSize.1
  let L := s.layers.map fun l => { l with canvas := rotateSurf cw l.canvas }
  commitEdit s L nw nh s.activeLayerId s.nextId

/-- The pixel content of one layer after applyCrop: a fresh canvas of the
new size whose pixel (i, j) is drawImage's 1:1 copy of the source pixel at
(cropX + i, cropY + j); source reads outside the old surface leave the
fresh canvas transparent. -/
def cropSurf (src : Surface) (cx cy : ℤ) (nw nh : ℕ) : Surface :=
  ⟨nw, nh, (List.range (nh * nw)).map fun k =>
    src.getPixel (cx + (k % nw : ℕ)) (cy + (k / nw : ℕ))⟩

/-- applyCrop from src/App.tsx lines 1108-1143: refuse only when there is no
crop rectangle or its width or height is exactly zero; otherwise round the
rectangle with Math.round, rewrite every layer to the cropped surface,
update the canvas size, snapshot.  Negative rounded dimensions undergo the
canvas element's ToUint32 coercion. -/
def applyCrop (s : EditorState) (rect? : Option CropRect) : EditorState :=
  match rect? with
  | none => s
  | some r =>
      if r.w = 0 ∨ r.h = 0 then s
      else
        let newW := toUint32 (jsRound r.w)
        let newH := toUint32 (jsRound r.h)
        let cropX := jsRound r.x
        let cropY := jsRound r.y
        let L := s.layers.map fun l => { l with canvas := cropSurf l.canvas cropX cropY newW newH }
        commitEdit s L newW newH s.activeLayerId s.nextId

/-- The pixel content of one layer after applyResize.  The browser's
smoothing resample filter is external to the repository; nearest sampling
stands in for it.  The claims proved about resize concern only the guard
and the dimensions, never this content. -/
def resizeSurf (src : Surface) (nw nh : ℕ) : Surface :=
  ⟨nw, nh, (List.range (nh * nw)).map fun k =>
    src.getPixel ((k % nw) * src.width / nw : ℕ) ((k / nw) * src.height / nh : ℕ)⟩

/-- applyResize from src/App.tsx lines 1151-1179: round the requested
dimensions, reject non-positive results before touching anything, otherwise
resample every layer, update the canvas size, snapshot. -/
def applyResize (s : EditorState) (wq hq : ℚ) : EditorState :=
  let newW := jsRound wq
  let newH := jsRound hq
  if newW ≤ 0 ∨ newH ≤ 0 then s
  else
    let L := s.layers.map fun l => { l with canvas := resizeSurf l.canvas newW.toNat newH.toNat }
    commitEdit s L newW.toNat newH.toNat s.activeLayerId s.nextId

/-- initEditorWithImage from src/App.tsx lines 320-354: a single background
layer holding the decoded image, sized to the (possibly downscaled) image
dimensions, active, with a freshly reset history containing exactly the
initial snapshot at step 0 (the net effect of setHistory([]),
setHistoryStep(-1) and the deferred saveHistory([bgLayer], w, h)). -/
def initEditor (w h : ℕ) (d : List Pixel) : EditorState :=
  let bg : Layer := { createLayer 0 "Background" w h with canvas := ⟨w, h, d⟩ }
  { layers := [bg]
    activeLayerId := some 0
    canvasSize := (w, h)
    history := [⟨[snapLayer bg], (w, h)⟩]
    historyStep := 0
    nextId := 1 }

/-- The editor states reachable through the user-triggerable operations of
src/App.tsx, at gesture granularity, starting from an initialized document.
The crop constructor carries the bounds 1 ≤ w and 1 ≤ h because every
writer of the cropRect state clamps both dimensions with Math.max(1, ...)
(src/App.tsx crop interaction handlers). -/
inductive Reachable : EditorState → Prop where
  | init (w h : ℕ) (d : List Pixel) : Reachable (initEditor w h d)
  | stroke {s} (d : List Pixel) : Reachable s → Reachable (handleStroke s d)
  | addLayer {s} : Reachable s → Reachable (handleAddLayer s)
  | installImage {s} (name : String) (d : List Pixel) :
      Reachable s → Reachable (handleInstallImageLayer s name d)
  | deleteLayer {s} (i : ℕ) : Reachable s → Reachable (handleDeleteLayer s i)
  | toggleVisibility {s} (i : ℕ) : Reachable s → Reachable (handleToggleVisibility s i)
  | opacityCommit {s} (i : ℕ) (v : ℚ) :
      Reachable s → Reachable (handleLayerOpacityCommit s i v)
  | blendChange {s} (i : ℕ) (m : BlendMode) :
      Reachable s → Reachable (handleLayerBlendChange s i m)
  | moveLayerUp {s} (i : ℕ) : Reachable s → Reachable (handleMoveLayerUp s i)
  | moveLayerDown {s} (i : ℕ) : Reachable s → Reachable (handleMoveLayerDown s i)
  | clearLayer {s} : Reachable s → Reachable (handleClearLayer s)
  | rotate {s} (cw : Bool) : Reachable s → Reachable (handleRotateCanvas s cw)
  | crop {s} (r : CropRect) (hw : 1 ≤ r.w) (hh : 1 ≤ r.h) :
      Reachable s → Reachable (applyCrop s (some r))
  | resize {s} (wq hq : ℚ) : Reachable s → Reachable (applyResize s wq hq)
  | undo {s} : Reachable s → Reachable (handleUndo s)
  | redo {s} : Reachable s → Reachable (handleRedo s)

/-! ### Compositor (renderCompositeCanvas, src/App.tsx lines 241-267) -/

/-- Scaling a source pixel's alpha by the context's globalAlpha before a
draw. -/
def scaleAlpha (t : ℚ) (p : Pixel) : Pixel := { p with a := p.a * t }

/-- Straight-alpha source-over compositing of one source pixel onto one
destination pixel (the default canvas composite operation). -/
def over (src dst : Pixel) : Pixel :=
  let a := src.a + dst.a * (1 - src.a)
  if a = 0 then transparent
  else
    ⟨(src.r * src.a + dst.r * dst.a * (1 - src.a)) / a,
     (src.g * src.a + dst.g * dst.a * (1 - src.a)) / a,
     (src.b * src.a + dst.b * dst.a * (1 - src.a)) / a, a⟩

/-- The blend mode a layer is drawn with: the transient preview blend mode
when this layer is the active layer and a preview is in effect, otherwise
the layer's stored blend mode (src/App.tsx lines 254-259). -/
def effectiveBlend (activeId : Option ℕ) (preview : Option BlendMode) (l : Layer) :
    BlendMode :=
  match preview with
  | some pm => if activeId == some l.id then pm else l.blendMode
  | none => l.blendMode

/-- One output pixel of the compositor: starting from the cleared
(transparent) accumulator, fold the layers bottom to top, skipping
invisible ones and drawing each visible layer's pixel through the external
compositing primitive bf under the layer's opacity and effective blend
mode. -/
def compositeAt (bf : BlendMode → ℚ → Pixel → Pixel → Pixel)
    (activeId : Option ℕ) (preview : Option BlendMode)
    (L : List Layer) (x y : ℤ) : Pixel :=
  L.foldl
    (fun acc l =>
      if l.visible then bf (effectiveBlend activeId preview l) l.opacity acc (l.canvas.getPixel x y)
      else acc)
    transparent

/-- renderCompositeCanvas from src/App.tsx lines 241-267: clear the output
canvas, then draw the visible layers bottom to top under their opacity and
effective blend mode.  The canvas drawing primitive (drawImage under
globalAlpha and globalCompositeOperation) is a browser built-in outside
this repository, so it appears as the parameter bf; the compositor's own
logic (clear, order, visibility skip, per-layer alpha and blend selection,
state reset after the loop) is all here. -/
def renderCompositeCanvas (bf : BlendMode → ℚ → Pixel → Pixel → Pixel)
    (L : List Layer) (activeId : Option ℕ) (preview : Option BlendMode)
    (w h : ℕ) : Surface :=
  ⟨w, h, (List.range (h * w)).map fun k =>
    compositeAt bf activeId preview L ((k % w : ℕ) : ℤ) ((k / w : ℕ) : ℤ)⟩

/-- A concrete instance of the compositing primitive: plain source-over
under the layer opacity, ignoring the blend mode.  Used to evaluate the
compositor on concrete documents. -/
def bfSourceOver : BlendMode → ℚ → Pixel → Pixel → Pixel :=
  fun _ t acc src => over (scaleAlpha t src) acc

/-- The tuple of exactly the per-layer inputs the compositor reads:
visibility, opacity, effective blend mode and the pixel buffer. -/
def compositeInputs (activeId : Option ℕ) (preview : Option BlendMode) (l : Layer) :
    Bool × ℚ × BlendMode × Surface :=
  (l.visible, l.opacity, effectiveBlend activeId preview l, l.canvas)

/-! ### Clone stamp (src/unnamed/part_002 lines 498-510 and 556-578)

The clone-stamp code only exists in the unnamed source variants.  On
pointer-down with a clone source set, cloneOffsetRef is assigned
source minus pointer-down point and never written again during the stroke;
paintClone clips to the brush footprint and copies, via drawImage, the
region of the live composite canvas centered at the sample point plus the
offset onto the active layer centered at the sample point.  Coordinates are
modelled as integers (integer-aligned sampling); the brush size stays
rational. -/

/-- The shapes paintClone clips to. -/
inductive BrushShape where
  | round
  | square
deriving DecidableEq

/-- Membership of a pixel q in the brush footprint centered at p: the disc
of radius brushSize / 2 for the round shape, the axis-aligned square of
half-side brushSize / 2 for the square shape. -/
def inFootprint (shape : BrushShape) (size : ℚ) (p q : ℤ × ℤ) : Bool :=
  match shape with
  | BrushShape.round =>
      decide ((((q.1 - p.1 : ℤ) : ℚ) ^ 2 + ((q.2 - p.2 : ℤ) : ℚ) ^ 2) ≤ (size / 2) ^ 2)
  | BrushShape.square =>
      decide ((|((q.1 - p.1 : ℤ) : ℚ)| ≤ size / 2) ∧ (|((q.2 - p.2 : ℤ) : ℚ)| ≤ size / 2))

/-- Whether an integer coordinate lies inside a surface's bounds.  drawImage
clips its source rectangle to the source canvas: destination pixels whose
source would fall outside are simply not painted. -/
def inBounds (s : Surface) (x y : ℤ) : Bool :=
  decide (0 ≤ x ∧ x < (s.width : ℤ) ∧ 0 ≤ y ∧ y < (s.height : ℤ))

/-- paintClone from src/unnamed/part_002 lines 556-578, for one sample point
p: within the brush footprint, pixels of the live composite at the sample
point plus the stroke offset are drawn source-over (under the stroke's
globalAlpha, which for the clone type is flow / 100) onto the active
layer; outside the footprint, or where the source read would leave the
composite, the layer is untouched. -/
def paintClone (composite : Surface) (off : ℤ × ℤ) (shape : BrushShape)
    (size flow : ℚ) (layer : Surface) (p : ℤ × ℤ) : Surface :=
  ⟨layer.width, layer.height, (List.range (layer.height * layer.width)).map fun k =>
    let x : ℤ := (k % layer.width : ℕ)
    let y : ℤ := (k / layer.width : ℕ)
    if inFootprint shape size p (x, y) && inBounds composite (x + off.1) (y + off.2) then
      over (scaleAlpha (flow / 100) (composite.getPixel (x + off.1) (y + off.2)))
        (layer.getPixel x y)
    else layer.getPixel x y⟩

/-- The per-stroke clone state: the offset ref written once at pointer-down
(src/unnamed/part_002 line 509) and the layer being painted. -/
structure CloneStroke where
  off : ℤ × ℤ
  layer : Surface
deriving DecidableEq

/-- Pointer-down of a clone stroke with a source already set: fix the offset
at source minus the pointer-down point and paint the first dab. -/
def clonePointerDown (composite : Surface) (source : ℤ × ℤ) (shape : BrushShape)
    (size flow : ℚ) (layer : Surface) (p0 : ℤ × ℤ) : CloneStroke :=
  let off := (source.1 - p0.1, source.2 - p0.2)
  ⟨off, paintClone composite off shape size flow layer p0⟩

/-- A later sample of the stroke: paint at the new point with the stored
offset, against whatever the live composite is at that moment.  The offset
ref is read, never written. -/
def clonePointerMove (shape : BrushShape) (size flow : ℚ) (st : CloneStroke)
    (sample : Surface × (ℤ × ℤ)) : CloneStroke :=
  ⟨st.off, paintClone sample.1 st.off shape size flow st.layer sample.2⟩

/-- A whole clone stroke: pointer-down at p0, then the list of later
samples, each carrying the live composite current at that sample. -/
def cloneStrokeRun (composite : Surface) (source : ℤ × ℤ) (shape : BrushShape)
    (size flow : ℚ) (layer : Surface) (p0 : ℤ × ℤ)
    (samples : List (Surface × (ℤ × ℤ))) : CloneStroke :=
  samples.foldl (clonePointerMove shape size flow)
    (clonePointerDown composite source shape size flow layer p0)

/-! ### Brush symmetry (getSymmetricPoints, src/unnamed/part_002 lines
452-476; identical in src/unnamed/part_001 lines 407-431)

The code computes the cosine and sine of the radial angle step once and
then repeatedly applies the same plane rotation to the running offset
vector from the canvas center.  Coordinates are real numbers. -/

/-- One application of the rotation step with precomputed cosine cs and
sine sn, as in the loop body nx / ny of getSymmetricPoints. -/
def rotStep (cs sn : ℝ) (d : ℝ × ℝ) : ℝ × ℝ :=
  (d.1 * cs - d.2 * sn, d.1 * sn + d.2 * cs)

/-- The loop of the radial branch: starting from the offset d, push the
center plus each successive rotation, count times. -/
def radialPoints (c : ℝ × ℝ) (cs sn : ℝ) : ℕ → ℝ × ℝ → List (ℝ × ℝ)
  | 0, _ => []
  | k + 1, d =>
      let d' := rotStep cs sn d
      (c.1 + d'.1, c.2 + d'.2) :: radialPoints c cs sn k d'

/-- The symmetry modes of the unnamed source variants. -/
inductive SymmetryMode where
  | none
  | vertical
  | horizontal
  | radial
deriving DecidableEq

/-- getSymmetricPoints from src/unnamed/part_002 lines 452-476: the point
itself, plus its mirror across the canvas's vertical or horizontal center
line, or, for radial symmetry, its radialCount - 1 successive rotations by
2 pi / radialCount about the canvas center. -/
noncomputable def getSymmetricPoints (sym : SymmetryMode) (radialCount : ℕ)
    (cw ch : ℝ) (x y : ℝ) : List (ℝ × ℝ) :=
  let cx := cw / 2
  let cy := ch / 2
  match sym with
  | SymmetryMode.none => [(x, y)]
  | SymmetryMode.vertical => [(x, y), (2 * cx - x, y)]
  | SymmetryMode.horizontal => [(x, y), (x, 2 * cy - y)]
  | SymmetryMode.radial =>
      let angleStep := 2 * Real.pi / radialCount
      (x, y) :: radialPoints (cx, cy) (Real.cos angleStep) (Real.sin angleStep)
        (radialCount - 1) (x - cx, y - cy)

/-- Rotation of a point about a center by an angle, the mathematical
description the symmetry claim is checked against. -/
noncomputable def rotAbout (c : ℝ × ℝ) (θ : ℝ) (p : ℝ × ℝ) : ℝ × ℝ :=
  (c.1 + (p.1 - c.1) * Real.cos θ - (p.2 - c.2) * Real.sin θ,
   c.2 + (p.1 - c.1) * Real.sin θ + (p.2 - c.2) * Real.cos θ)

/-- Squared Euclidean distance in the plane. -/
def dist2 (p q : ℝ × ℝ) : ℝ := (p.1 - q.1) ^ 2 + (p.2 - q.2) ^ 2

/-- Rotation with precomputed cosine and sine of θ is rotation by θ. -/
noncomputable def rotVec (θ : ℝ) (v : ℝ × ℝ) : ℝ × ℝ :=
  rotStep (Real.cos θ) (Real.sin θ) v

/-! ### Concrete example documents used to evaluate the theorems -/

/-- A one-pixel document whose single layer was painted from alpha-black to
red by one stroke: afterwards the step pointer is 1 of 2. -/
def c1State : EditorState :=
  handleStroke (initEditor 1 1 [⟨0, 0, 0, 1⟩]) [⟨1, 0, 0, 1⟩]

/-- A one-pixel document whose black background is painted red by n
successive strokes, each snapshotting. -/
def evictChain : ℕ → EditorState
  | 0 => initEditor 1 1 [⟨0, 0, 0, 1⟩]
  | n + 1 => handleStroke (evictChain n) [⟨1, 0, 0, 1⟩]

/-- n repetitions of handleUndo. -/
def undoN : ℕ → EditorState → EditorState
  | 0, s => s
  | n + 1, s => undoN n (handleUndo s)

/-- Two single-layer documents differing only in layer name and id (and in
which layer is active, with no preview pending): the compositor's inputs
coincide. -/
def c2DocA : List Layer := [⟨0, "A", true, 1, BlendMode.multiply, ⟨1, 1, [⟨1, 0, 0, 1⟩]⟩⟩]

/-- See c2DocA. -/
def c2DocB : List Layer := [⟨7, "B", true, 1, BlendMode.multiply, ⟨1, 1, [⟨1, 0, 0, 1⟩]⟩⟩]

/-- A 21-by-21 opaque green composite, the clone source for the example
scenario. -/
def compC5 : Surface := ⟨21, 21, List.replicate (21 * 21) ⟨0, 1, 0, 1⟩⟩

/-- A 41-by-41 target layer for the clone example scenario. -/
def layC5 : Surface := ⟨41, 41, List.replicate (41 * 41) transparent⟩

/-! ### The reachable-state invariant -/

/-- Internal consistency of one history entry: it snapshots a non-empty
layer list with pairwise distinct ids, and every per-layer pixel copy has
exactly the entry's recorded canvas size. -/
def snapConsistent (hs : HistoryState) : Prop :=
  hs.layers ≠ [] ∧ (hs.layers.map LayerSnapshot.id).Nodup ∧
    ∀ ls ∈ hs.layers, ls.imageData.width = hs.size.1 ∧ ls.imageData.height = hs.size.2

/-- The master invariant of reachable editor states: the history is bounded
by 10 with a valid step pointer, every stored snapshot is internally
consistent with ids below the id counter, and the entry under the step
pointer is exactly the snapshot of the live layers and canvas size. -/
structure Inv (s : EditorState) : Prop where
  histLen : s.history.length ≤ 10
  stepLt : s.historyStep < s.history.length
  histOk : ∀ hs ∈ s.history, snapConsistent hs
  histIds : ∀ hs ∈ s.history, ∀ ls ∈ hs.layers, ls.id < s.nextId
  current : s.history.get? s.historyStep = some ⟨s.layers.map snapLayer, s.canvasSize⟩

lemma snapLayer_id (l : Layer) : (snapLayer l).id = l.id := rfl

lemma snapLayer_restoreLayer (ls : LayerSnapshot) : snapLayer (restoreLayer ls) = ls := rfl

lemma map_id_map_snapLayer (L : List Layer) :
    (L.map snapLayer).map LayerSnapshot.id = L.map Layer.id := by
  rw [List.map_map]; rfl

/-- The snapshot under the step pointer is a member of the history. -/
lemma Inv.currentMem {s : EditorState} (hs : Inv s) :
    (⟨s.layers.map snapLayer, s.canvasSize⟩ : HistoryState) ∈ s.history :=
  List.get?_mem hs.current

/-- Live layer list facts derived from the invariant: non-empty, distinct
ids, dimensions equal to the canvas size, ids below the counter. -/
lemma Inv.live {s : EditorState} (hs : Inv s) :
    s.layers ≠ [] ∧ (s.layers.map Layer.id).Nodup ∧
      (∀ l ∈ s.layers, l.canvas.width = s.canvasSize.1 ∧ l.canvas.height = s.canvasSize.2) ∧
      ∀ l ∈ s.layers, l.id < s.nextId := by
  have hmem := hs.currentMem
  obtain ⟨hne, hnd, hdim⟩ := hs.histOk _ hmem
  have hlt := hs.histIds _ hmem
  refine ⟨?_, ?_, ?_, ?_⟩
  · intro h; exact hne (by simp [h])
  · rw [← map_id_map_snapLayer]; exact hnd
  · intro l hl
    exact hdim (snapLayer l) (List.mem_map_of_mem snapLayer hl)
  · intro l hl
    exact hlt (snapLayer l) (List.mem_map_of_mem snapLayer hl)

/-- commitEdit written out by branch, for case analysis. -/
lemma commitEdit_def (s : EditorState) (L : List Layer) (w h : ℕ) (act : Option ℕ) (n : ℕ) :
    commitEdit s L w h act n =
      if 10 < (s.history.take (s.historyStep + 1) ++ [(⟨L.map snapLayer, (w, h)⟩ : HistoryState)]).length then
        { layers := L, activeLayerId := act, canvasSize := (w, h),
          history := (s.history.take (s.historyStep + 1) ++ [(⟨L.map snapLayer, (w, h)⟩ : HistoryState)]).drop 1,
          historyStep := s.historyStep, nextId := n }
      else
        { layers := L, activeLayerId := act, canvasSize := (w, h),
          history := s.history.take (s.historyStep + 1) ++ [(⟨L.map snapLayer, (w, h)⟩ : HistoryState)],
          historyStep := s.historyStep + 1, nextId := n } := by
  by_cases hc : 10 <
      (s.history.take (s.historyStep + 1) ++ [(⟨L.map snapLayer, (w, h)⟩ : HistoryState)]).length
  all_goals simp only [commitEdit, saveHistory, hc, if_true, if_false]

/-- commitEdit preserves the invariant provided the new layer list is
non-empty with distinct ids below the (non-decreasing) id counter and all
its surfaces have the new canvas size. -/
lemma inv_commitEdit {s : EditorState} {L : List Layer} {w h : ℕ} {act : Option ℕ} {n : ℕ}
    (hs : Inv s)
    (hne : L ≠ []) (hnd : (L.map Layer.id).Nodup)
    (hdims : ∀ l ∈ L, l.canvas.width = w ∧ l.canvas.height = h)
    (hlt : ∀ l ∈ L, l.id < n) (hmono : s.nextId ≤ n) :
    Inv (commitEdit s L w h act n) := by
  have hstep1 : s.historyStep + 1 ≤ s.history.length := hs.stepLt
  have hTlen : (s.history.take (s.historyStep + 1)).length = s.historyStep + 1 := by
    rw [List.length_take]; omega
  have hconsis : snapConsistent ⟨L.map snapLayer, (w, h)⟩ := by
    refine ⟨by simpa using hne, ?_, ?_⟩
    · rw [map_id_map_snapLayer]; exact hnd
    · intro ls hls
      obtain ⟨l, hl, rfl⟩ := List.mem_map.1 hls
      exact hdims l hl
  have hidsNew : ∀ ls ∈ (⟨L.map snapLayer, (w, h)⟩ : HistoryState).layers, ls.id < n := by
    intro ls hls
    obtain ⟨l, hl, rfl⟩ := List.mem_map.1 hls
    exact hlt l hl
  rw [commitEdit_def]
  by_cases hcap : 10 <
      (s.history.take (s.historyStep + 1) ++ [(⟨L.map snapLayer, (w, h)⟩ : HistoryState)]).length
  all_goals simp only [hcap, if_true, if_false]
  · -- eviction branch: the step pointer was at 9 with a full history
    have hlen : (s.history.take (s.historyStep + 1) ++ [(⟨L.map snapLayer, (w, h)⟩ : HistoryState)]).length
        = s.historyStep + 2 := by simp [hTlen]
    have hstep9 : s.historyStep = 9 := by
      have := hs.histLen
      omega
    refine ⟨?_, ?_, ?_, ?_, ?_⟩
    · simp only [List.length_drop, hlen]; omega
    · simp only [List.length_drop, hlen]; omega
    · intro x hx
      have hx' := List.mem_of_mem_drop hx
      rcases List.mem_append.1 hx' with hx'' | hx''
      · exact hs.histOk x (List.mem_of_mem_take hx'')
      · rw [List.mem_singleton.1 hx'']; exact hconsis
    · intro x hx ls hls
      have hx' := List.mem_of_mem_drop hx
      rcases List.mem_append.1 hx' with hx'' | hx''
      · exact lt_of_lt_of_le (hs.histIds x (List.mem_of_mem_take hx'') ls hls) hmono
      · rw [List.mem_singleton.1 hx''] at hls; exact hidsNew ls hls
    · show ((s.history.take (s.historyStep + 1) ++
          [(⟨L.map snapLayer, (w, h)⟩ : HistoryState)]).drop 1).get? s.historyStep = _
      have hlen10 : s.history.length = 10 := by
        have := hs.histLen
        omega
      rw [List.get?_drop, List.get?_append_right (by omega)]
      simp [List.length_take, hlen10, hstep9]
  · -- ordinary branch: append and advance the pointer
    have hlen : (s.history.take (s.historyStep + 1) ++ [(⟨L.map snapLayer, (w, h)⟩ : HistoryState)]).length
        = s.historyStep + 2 := by simp [hTlen]
    refine ⟨?_, ?_, ?_, ?_, ?_⟩
    · show (s.history.take (s.historyStep + 1) ++
          [(⟨L.map snapLayer, (w, h)⟩ : HistoryState)]).length ≤ 10
      omega
    · show s.historyStep + 1 < (s.history.take (s.historyStep + 1) ++
          [(⟨L.map snapLayer, (w, h)⟩ : HistoryState)]).length
      omega
    · intro x hx
      rcases List.mem_append.1 hx with hx'' | hx''
      · exact hs.histOk x (List.mem_of_mem_take hx'')
      · rw [List.mem_singleton.1 hx'']; exact hconsis
    · intro x hx ls hls
      rcases List.mem_append.1 hx with hx'' | hx''
      · exact lt_of_lt_of_le (hs.histIds x (List.mem_of_mem_take hx'') ls hls) hmono
      · rw [List.mem_singleton.1 hx''] at hls; exact hidsNew ls hls
    · show (s.history.take (s.historyStep + 1) ++
          [(⟨L.map snapLayer, (w, h)⟩ : HistoryState)]).get? (s.historyStep + 1) = _
      rw [List.get?_append_right (by omega)]
      simp [hTlen]

lemma mapEdit_ids (L : List Layer) (f : Layer → Layer) (hid : ∀ l, (f l).id = l.id) :
    (L.map f).map Layer.id = L.map Layer.id := by
  rw [List.map_map]
  exact List.map_congr_left fun a _ => hid a

/-- Edits of the shape "rewrite every layer with an id-preserving function
whose output surfaces all have the new canvas size" preserve the
invariant. -/
lemma inv_mapCommit {s : EditorState} (hs : Inv s) (f : Layer → Layer) (nw nh : ℕ)
    (act : Option ℕ)
    (hid : ∀ l, (f l).id = l.id)
    (hdim : ∀ l ∈ s.layers, (f l).canvas.width = nw ∧ (f l).canvas.height = nh) :
    Inv (commitEdit s (s.layers.map f) nw nh act s.nextId) := by
  obtain ⟨hne, hnd, _, hlt⟩ := hs.live
  refine inv_commitEdit hs ?_ ?_ ?_ ?_ le_rfl
  · simpa using hne
  · rw [mapEdit_ids _ _ hid]; exact hnd
  · intro l' hl'
    obtain ⟨l, hl, rfl⟩ := List.mem_map.1 hl'
    exact hdim l hl
  · intro l' hl'
    obtain ⟨l, hl, rfl⟩ := List.mem_map.1 hl'
    rw [hid]; exact hlt l hl

/-- A filter by one id keeps at least one element of a two-element-or-longer
list with pairwise distinct ids. -/
lemma filter_ne_nil_of_two {L : List Layer} (i : ℕ)
    (hlen : 2 ≤ L.length) (hnd : (L.map Layer.id).Nodup) :
    L.filter (fun l => l.id != i) ≠ [] := by
  intro hnil
  rw [List.filter_eq_nil] at hnil
  match L, hlen, hnd, hnil with
  | a :: b :: t, _, hnd, hnil =>
    have ha : a.id = i := by
      have := hnil a (by simp)
      simpa using this
    have hb : b.id = i := by
      have := hnil b (by simp)
      simpa using this
    have hnotin : a.id ∉ (b :: t).map Layer.id := (List.nodup_cons.1 hnd).1
    exact hnotin (by simp [ha, hb])

/-- Swapping adjacent entries (the destructuring swap of handleMoveLayer)
is a permutation. -/
lemma set_set_swap_perm : ∀ (l : List Layer) (i : ℕ) (h : i + 1 < l.length),
    List.Perm ((l.set i (l.get ⟨i + 1, h⟩)).set (i + 1) (l.get ⟨i, Nat.lt_of_succ_lt h⟩)) l
  | [], _, h => absurd h (by simp)
  | a :: b :: t, 0, _ => by
      simpa using List.Perm.swap a b t
  | a :: l, i + 1, h => by
      have h' : i + 1 < l.length := by simpa using h
      simpa using (set_set_swap_perm l i h').cons a

/-- A commit of a permutation of the live layers (same canvas size, same
active layer) preserves the invariant. -/
lemma inv_permCommit {s : EditorState} (hs : Inv s) {L : List Layer}
    (hperm : List.Perm L s.layers) :
    Inv (commitEdit s L s.canvasSize.1 s.canvasSize.2 s.activeLayerId s.nextId) := by
  obtain ⟨hne, hnd, hdims, hlt⟩ := hs.live
  refine inv_commitEdit hs ?_ ?_ ?_ ?_ le_rfl
  · intro hL
    rw [hL] at hperm
    exact hne (hperm.nil_eq).symm
  · exact ((hperm.map Layer.id).nodup_iff).2 hnd
  · intro l hl; exact hdims l (hperm.mem_iff.1 hl)
  · intro l hl; exact hlt l (hperm.mem_iff.1 hl)

/-- Restoring a valid history index (the common body of undo and redo)
preserves the invariant. -/
lemma inv_restore {s : EditorState} (hs : Inv s) (k : ℕ) (hk : k < s.history.length) :
    Inv { restoreHistoryStep s k with historyStep := k } := by
  obtain ⟨st, hst⟩ : ∃ st, s.history.get? k = some st := by
    rw [List.get?_eq_get hk]; exact ⟨_, rfl⟩
  unfold restoreHistoryStep
  rw [hst]
  refine ⟨hs.histLen, hk, hs.histOk, hs.histIds, ?_⟩
  show s.history.get? k = some ⟨(st.layers.map restoreLayer).map snapLayer, st.size⟩
  rw [List.map_map]
  have : st.layers.map (snapLayer ∘ restoreLayer) = st.layers := by
    rw [show snapLayer ∘ restoreLayer = id from rfl, List.map_id]
  rw [this, hst]

/-- Every reachable editor state satisfies the master invariant. -/
theorem reachable_inv {s : EditorState} (h : Reachable s) : Inv s := by
  induction h with
  | init w h d =>
      refine ⟨by simp [initEditor], by simp [initEditor], ?_, ?_, by simp [initEditor]⟩
      · intro hs hmem
        simp only [initEditor, List.mem_singleton] at hmem
        subst hmem
        exact ⟨by simp, by simp, by intro ls hls; simp at hls; subst hls; exact ⟨rfl, rfl⟩⟩
      · intro hs hmem ls hls
        simp only [initEditor, List.mem_singleton] at hmem
        subst hmem
        simp at hls
        subst hls
        simp [initEditor, snapLayer, createLayer]
  | @stroke s d _ ih =>
      unfold handleStroke
      cases hact : s.activeLayerId with
      | none => exact ih
      | some i =>
          by_cases hg : s.layers.any (fun l => l.id == i && l.visible)
          · simp only [hg, if_true]
            refine inv_mapCommit ih _ _ _ _ ?_ ?_
            · intro l; by_cases h : l.id == i <;> simp [h]
            · intro l hl
              have hd := ih.live.2.2.1 l hl
              by_cases h : l.id == i <;> simp [h] <;> exact hd
          · simp only [hg, if_false]; exact ih
  | @addLayer s _ ih =>
      unfold handleAddLayer
      obtain ⟨hne, hnd, hdims, hlt⟩ := ih.live
      refine inv_commitEdit ih (by simp) ?_ ?_ ?_ (Nat.le_succ _)
      · rw [List.map_append]
        refine hnd.append (by simp) ?_
        intro x hx1 hx2
        obtain ⟨l, hl, rfl⟩ := List.mem_map.1 hx1
        simp only [List.map_cons, List.map_nil, List.mem_singleton] at hx2
        have : (createLayer s.nextId ("Layer " ++ toString (s.layers.length + 1))
            s.canvasSize.1 s.canvasSize.2).id = s.nextId := rfl
        rw [this] at hx2
        exact absurd hx2 (Nat.ne_of_lt (hlt l hl))
      · intro l hl
        rcases List.mem_append.1 hl with h | h
        · exact hdims l h
        · rw [List.mem_singleton.1 h]; exact ⟨rfl, rfl⟩
      · intro l hl
        rcases List.mem_append.1 hl with h | h
        · exact Nat.lt_succ_of_lt (hlt l h)
        · rw [List.mem_singleton.1 h]; exact Nat.lt_succ_self _
  | @installImage s name d _ ih =>
      unfold handleInstallImageLayer
      obtain ⟨hne, hnd, hdims, hlt⟩ := ih.live
      refine inv_commitEdit ih (by simp) ?_ ?_ ?_ (Nat.le_succ _)
      · rw [List.map_append]
        refine hnd.append (by simp) ?_
        intro x hx1 hx2
        obtain ⟨l, hl, rfl⟩ := List.mem_map.1 hx1
        simp only [List.map_cons, List.map_nil, List.mem_singleton] at hx2
        rw [show ({ createLayer s.nextId name s.canvasSize.1 s.canvasSize.2 with
            canvas := ⟨s.canvasSize.1, s.canvasSize.2, d⟩ } : Layer).id = s.nextId from rfl] at hx2
        exact absurd hx2 (Nat.ne_of_lt (hlt l hl))
      · intro l hl
        rcases List.mem_append.1 hl with h | h
        · exact hdims l h
        · rw [List.mem_singleton.1 h]; exact ⟨rfl, rfl⟩
      · intro l hl
        rcases List.mem_append.1 hl with h | h
        · exact Nat.lt_succ_of_lt (hlt l h)
        · rw [List.mem_singleton.1 h]; exact Nat.lt_succ_self _
  | @deleteLayer s i _ ih =>
      unfold handleDeleteLayer
      by_cases hlen : s.layers.length ≤ 1
      · simp only [hlen, if_true]; exact ih
      · simp only [hlen, if_false]
        obtain ⟨hne, hnd, hdims, hlt⟩ := ih.live
        refine inv_commitEdit ih ?_ ?_ ?_ ?_ le_rfl
        · exact filter_ne_nil_of_two i (by omega) hnd
        · exact hnd.sublist ((s.layers.filter_sublist).map Layer.id)
        · intro l hl; exact hdims l (List.mem_of_mem_filter hl)
        · intro l hl; exact hlt l (List.mem_of_mem_filter hl)
  | @toggleVisibility s i _ ih =>
      unfold handleToggleVisibility
      refine inv_mapCommit ih _ _ _ _ ?_ ?_
      · intro l; by_cases h : l.id == i <;> simp [h]
      · intro l hl
        have hd := ih.live.2.2.1 l hl
        by_cases h : l.id == i <;> simp [h] <;> exact hd
  | @opacityCommit s i v _ ih =>
      unfold handleLayerOpacityCommit
      refine inv_mapCommit ih _ _ _ _ ?_ ?_
      · intro l; by_cases h : l.id == i <;> simp [h]
      · intro l hl
        have hd := ih.live.2.2.1 l hl
        by_cases h : l.id == i <;> simp [h] <;> exact hd
  | @blendChange s i m _ ih =>
      unfold handleLayerBlendChange
      refine inv_mapCommit ih _ _ _ _ ?_ ?_
      · intro l; by_cases h : l.id == i <;> simp [h]
      · intro l hl
        have hd := ih.live.2.2.1 l hl
        by_cases h : l.id == i <;> simp [h] <;> exact hd
  | @moveLayerUp s index _ ih =>
      unfold handleMoveLayerUp
      split
      · next h => exact inv_permCommit ih (set_set_swap_perm s.layers index h)
      · exact ih
  | @moveLayerDown s index _ ih =>
      unfold handleMoveLayerDown
      split
      · next h =>
          obtain ⟨j, rfl⟩ : ∃ j, index = j + 1 := ⟨index - 1, by omega⟩
          refine inv_permCommit ih ?_
          simp only [Nat.add_sub_cancel]
          rw [List.set_comm _ _ _ (Nat.succ_ne_self j)]
          exact set_set_swap_perm s.layers j h.2
      · exact ih
  | @clearLayer s _ ih =>
      unfold handleClearLayer
      cases hact : s.activeLayerId with
      | none => exact ih
      | some i =>
          by_cases hg : s.layers.any (fun l => l.id == i)
          · simp only [hg, if_true]
            refine inv_mapCommit ih _ _ _ _ ?_ ?_
            · intro l; by_cases h : l.id == i <;> simp [h]
            · intro l hl
              have hd := ih.live.2.2.1 l hl
              by_cases h : l.id == i <;> simp [h] <;> exact hd
          · simp only [hg, if_false]; exact ih
  | @rotate s cw _ ih =>
      unfold handleRotateCanvas
      refine inv_mapCommit ih _ _ _ _ (fun l => rfl) ?_
      intro l hl
      have hd := ih.live.2.2.1 l hl
      exact ⟨hd.2, hd.1⟩
  | @crop s r hw hh _ ih =>
      unfold applyCrop
      by_cases hg : r.w = 0 ∨ r.h = 0
      · simp only [hg, if_true]; exact ih
      · simp only [hg, if_false]
        exact inv_mapCommit ih _ _ _ _ (fun l => rfl) (fun l _ => ⟨rfl, rfl⟩)
  | @resize s wq hq _ ih =>
      unfold applyResize
      by_cases hg : jsRound wq ≤ 0 ∨ jsRound hq ≤ 0
      · simp only [hg, if_true]; exact ih
      · simp only [hg, if_false]
        exact inv_mapCommit ih _ _ _ _ (fun l => rfl) (fun l _ => ⟨rfl, rfl⟩)
  | @undo s _ ih =>
      unfold handleUndo
      by_cases hpos : 0 < s.historyStep
      · simp only [hpos, if_true]
        exact inv_restore ih _ (by have := ih.stepLt; omega)
      · simp only [hpos, if_false]; exact ih
  | @redo s _ ih =>
      unfold handleRedo
      by_cases hlt : s.historyStep + 1 < s.history.length
      · simp only [hlt, if_true]
        exact inv_restore ih _ hlt
      · simp only [hlt, if_false]; exact ih

/-! ### Claim C8 -/

/-- C8: at every reachable state, every layer's surface width and height
equal the document's current canvas width and height; layer creation,
resize, crop, rotate and history restoration all preserve the equality. -/
theorem C8_layer_dims_match_canvas {s : EditorState} (h : Reachable s) :
    ∀ l ∈ s.layers,
      l.canvas.width = s.canvasSize.1 ∧ l.canvas.height = s.canvasSize.2 :=
  (reachable_inv h).live.2.2.1

theorem C8_layer_dims_match_canvas_witness :
    (handleRotateCanvas (initEditor 2 3 []) true).canvasSize = (3, 2) ∧
    ∀ l ∈ (handleRotateCanvas (initEditor 2 3 []) true).layers,
      l.canvas.width = (handleRotateCanvas (initEditor 2 3 []) true).canvasSize.1 ∧
      l.canvas.height = (handleRotateCanvas (initEditor 2 3 []) true).canvasSize.2 :=
  ⟨by decide, C8_layer_dims_match_canvas (Reachable.rotate true (Reachable.init 2 3 []))⟩

/-! ### Claim C10 -/

/-- C10: with exactly one layer, handleDeleteLayer is a no-op for every id
(layers, active-layer reference and history all unchanged, since the whole
state is unchanged); and at every reachable state the layer count is at
least one. -/
theorem C10_delete_guard {s : EditorState} (h : Reachable s) (i : ℕ) :
    (s.layers.length = 1 → handleDeleteLayer s i = s) ∧ 1 ≤ s.layers.length := by
  constructor
  · intro h1
    unfold handleDeleteLayer
    rw [if_pos (by omega)]
  · exact List.length_pos.2 (reachable_inv h).live.1

theorem C10_delete_guard_witness :
    handleDeleteLayer (initEditor 1 1 []) 99 = initEditor 1 1 [] ∧
    1 ≤ (initEditor 1 1 []).layers.length :=
  ⟨(C10_delete_guard (Reachable.init 1 1 []) 99).1 (by decide),
   (C10_delete_guard (Reachable.init 1 1 []) 99).2⟩

/-! ### Claim C9 -/

/-- C9 as stated is false: handleLayerOpacityCommit stores the given value
without clamping, so committing the out-of-range value 2 stores 2, not
min 1 (max 0 2) = 1. -/
theorem C9_opacity_not_clamped_cex :
    ¬ ((handleLayerOpacityCommit (initEditor 1 1 []) 0 2).layers.map Layer.opacity
        = [min 1 (max 0 (2 : ℚ))]) := by decide

/-- C9 amended: setting a layer's opacity stores the value exactly as
given, leaving every other field and every other layer unchanged; for
values in [0, 1] — the only values the opacity slider can produce — the
stored value therefore coincides with min 1 (max 0 v). -/
theorem C9_opacity_stores_value (s : EditorState) (i : ℕ) (v : ℚ)
    (h0 : 0 ≤ v) (h1 : v ≤ 1) :
    ((handleLayerOpacityCommit s i v).layers.map Layer.opacity
        = s.layers.map fun l => if l.id = i then min 1 (max 0 v) else l.opacity) ∧
    ((handleLayerOpacityCommit s i v).layers.map
          (fun l => (l.id, l.name, l.visible, l.blendMode, l.canvas))
        = s.layers.map fun l => (l.id, l.name, l.visible, l.blendMode, l.canvas)) := by
  have hclamp : min 1 (max 0 v) = v := by
    rw [max_eq_right h0, min_eq_right h1]
  constructor
  · show ((s.layers.map fun l => if l.id == i then { l with opacity := v } else l).map
        Layer.opacity) = _
    rw [List.map_map]
    refine List.map_congr_left fun l _ => ?_
    by_cases h : l.id = i <;> simp [h, hclamp]
  · show ((s.layers.map fun l => if l.id == i then { l with opacity := v } else l).map
        (fun l => (l.id, l.name, l.visible, l.blendMode, l.canvas))) = _
    rw [List.map_map]
    refine List.map_congr_left fun l _ => ?_
    by_cases h : l.id = i <;> simp [h]

theorem C9_opacity_stores_value_witness :
    (0 : ℚ) ≤ 1 / 2 ∧ (1 / 2 : ℚ) ≤ 1 ∧
    (handleLayerOpacityCommit (initEditor 1 1 []) 0 (1 / 2)).layers.map Layer.opacity
      = [1 / 2] := by
  refine ⟨by norm_num, by norm_num, ?_⟩
  have h := (C9_opacity_stores_value (initEditor 1 1 []) 0 (1 / 2)
      (by norm_num) (by norm_num)).1
  rw [h]
  norm_num [initEditor, createLayer]

/-! ### Claim C7 -/

/-- C7 as stated is false for crop: applyCrop's guard rejects only a
missing rectangle or an exactly-zero width or height, so a rectangle with
negative width passes the guard, the layers are rewritten and a history
snapshot is pushed — the document is not left unchanged. -/
theorem C7_crop_negative_not_rejected_cex :
    applyCrop (initEditor 1 1 []) (some ⟨0, 0, -5, 5⟩) ≠ initEditor 1 1 [] := by
  intro heq
  have h2 : (applyCrop (initEditor 1 1 []) (some ⟨0, 0, -5, 5⟩)).history.length
      = (initEditor 1 1 []).history.length := by rw [heq]
  exact absurd h2 (by decide)

/-- C7 amended: applyResize rejects any request with non-positive width or
height before touching anything (the state is returned unchanged, so no
layer is rewritten, the canvas size is kept and no snapshot is taken);
applyCrop does the same for a missing rectangle and for a rectangle whose
width or height is exactly zero, but does not itself guard against
negative crop dimensions. -/
theorem C7_nonpositive_geometry_rejected :
    (∀ (s : EditorState) (wq hq : ℚ), wq ≤ 0 ∨ hq ≤ 0 → applyResize s wq hq = s) ∧
    (∀ s : EditorState, applyCrop s none = s) ∧
    (∀ (s : EditorState) (r : CropRect), r.w = 0 ∨ r.h = 0 → applyCrop s (some r) = s) := by
  refine ⟨?_, ?_, ?_⟩
  · intro s wq hq hle
    have hguard : jsRound wq ≤ 0 ∨ jsRound hq ≤ 0 := by
      rcases hle with hle | hle
      · left
        have : jsRound wq < 1 := Int.floor_lt.2 (by push_cast; linarith)
        omega
      · right
        have : jsRound hq < 1 := Int.floor_lt.2 (by push_cast; linarith)
        omega
    unfold applyResize
    rw [if_pos hguard]
  · intro s; rfl
  · intro s r hzero
    simp only [applyCrop]
    rw [if_pos hzero]

theorem C7_nonpositive_geometry_rejected_witness :
    applyResize (initEditor 1 1 []) (-3) 5 = initEditor 1 1 [] ∧
    applyCrop (initEditor 1 1 []) none = initEditor 1 1 [] ∧
    applyCrop (initEditor 1 1 []) (some ⟨0, 0, 0, 7⟩) = initEditor 1 1 [] :=
  ⟨C7_nonpositive_geometry_rejected.1 _ _ _ (Or.inl (by norm_num)),
   C7_nonpositive_geometry_rejected.2.1 _,
   C7_nonpositive_geometry_rejected.2.2 _ _ (Or.inl rfl)⟩

/-! ### Claim C4 -/

/-- Indexing a row-major grid built from List.range. -/
lemma getD_grid {α : Type} (w h : ℕ) (F : ℕ → ℕ → α) (d : α) (i j : ℕ)
    (hi : i < w) (hj : j < h) :
    ((List.range (h * w)).map fun k => F (k % w) (k / w)).getD (j * w + i) d = F i j := by
  have hidx : j * w + i < h * w := by
    calc j * w + i < j * w + w := by omega
    _ = (j + 1) * w := by ring
    _ ≤ h * w := Nat.mul_le_mul_right w hj
  have h1 : ((List.range (h * w)).map fun k => F (k % w) (k / w)).get? (j * w + i)
      = some (F ((j * w + i) % w) ((j * w + i) / w)) := by
    rw [List.get?_map, List.get?_range hidx]
    rfl
  have hmod : (j * w + i) % w = i := by
    rw [Nat.mul_comm j w, Nat.mul_add_mod]
    exact Nat.mod_eq_of_lt hi
  have hdiv : (j * w + i) / w = j := by
    rw [Nat.mul_comm j w, Nat.mul_add_div (by omega), Nat.div_eq_of_lt hi]
    omega
  rw [List.getD_eq_getD_get?, h1, hmod, hdiv]
  rfl

/-- Reading one in-range pixel of a cropped surface gives the source pixel
offset by the crop origin. -/
lemma cropSurf_getPixel (src : Surface) (cx cy : ℤ) (nw nh : ℕ) (i j : ℕ)
    (hi : i < nw) (hj : j < nh) :
    (cropSurf src cx cy nw nh).getPixel i j = src.getPixel (cx + i) (cy + j) := by
  show Surface.getPixel ⟨nw, nh, _⟩ i j = _
  unfold Surface.getPixel
  rw [if_pos (by constructor <;> [positivity; constructor] <;>
    [exact_mod_cast hi; constructor] <;> [positivity; exact_mod_cast hj])]
  show ((List.range (nh * nw)).map fun k =>
      src.getPixel (cx + (k % nw : ℕ)) (cy + (k / nw : ℕ))).getD
        ((j : ℤ).toNat * nw + (i : ℤ).toNat) transparent = _
  rw [Int.toNat_natCast, Int.toNat_natCast]
  exact getD_grid nw nh (fun a b => src.getPixel (cx + a) (cy + b)) transparent i j hi hj

/-- C4 as stated is false: applyCrop rounds the rectangle with Math.round
(round half up), not floor, so cropping with width and height 5/2 produces
a 3-by-3 canvas, not the floor(5/2) = 2 canvas the claim requires. -/
theorem C4_crop_rounds_not_floors_cex :
    (applyCrop (initEditor 4 4 []) (some ⟨0, 0, 5 / 2, 5 / 2⟩)).canvasSize
      ≠ ((⌊(5 : ℚ) / 2⌋).toNat, (⌊(5 : ℚ) / 2⌋).toNat) := by
  have hr : jsRound (5 / 2 : ℚ) = 3 := by
    unfold jsRound
    norm_num
  have h1 : (applyCrop (initEditor 4 4 []) (some ⟨0, 0, 5 / 2, 5 / 2⟩)).canvasSize = (3, 3) := by
    simp only [applyCrop]
    rw [if_neg (by norm_num)]
    show (toUint32 (jsRound (5 / 2 : ℚ)), toUint32 (jsRound (5 / 2 : ℚ))) = (3, 3)
    rw [hr]
    decide
  have h2 : (⌊(5 : ℚ) / 2⌋).toNat = 2 := by
    rw [show ⌊(5 : ℚ) / 2⌋ = 2 by norm_num]
    rfl
  rw [h1, h2]
  decide

/-- C4 amended: for a crop rectangle with positive width and height (below
the canvas-dimension coercion bound 2^32), applyCrop produces a canvas —
and every layer surface — of size round(w) by round(h) (Math.round, i.e.
round half up, not floor), and the resulting pixel at (i, j) equals the
source layer's pixel at (round(x) + i, round(y) + j) for every in-range
(i, j). -/
theorem C4_crop_geometry (s : EditorState) (r : CropRect)
    (hw : 0 < r.w) (hh : 0 < r.h)
    (hwB : r.w ≤ 4294967295) (hhB : r.h ≤ 4294967295) :
    ((applyCrop s (some r)).canvasSize = ((jsRound r.w).toNat, (jsRound r.h).toNat)) ∧
    (∀ k l, s.layers.get? k = some l →
      ∃ l', (applyCrop s (some r)).layers.get? k = some l' ∧
        l'.canvas.width = (jsRound r.w).toNat ∧
        l'.canvas.height = (jsRound r.h).toNat ∧
        ∀ i j : ℕ, i < (jsRound r.w).toNat → j < (jsRound r.h).toNat →
          l'.canvas.getPixel i j
            = l.canvas.getPixel (jsRound r.x + i) (jsRound r.y + j)) := by
  have hwnn : 0 ≤ jsRound r.w := Int.le_floor.2 (by push_cast; linarith)
  have hhnn : 0 ≤ jsRound r.h := Int.le_floor.2 (by push_cast; linarith)
  have hwlt : jsRound r.w < 4294967296 := Int.floor_lt.2 (by push_cast; linarith)
  have hhlt : jsRound r.h < 4294967296 := Int.floor_lt.2 (by push_cast; linarith)
  have huw : toUint32 (jsRound r.w) = (jsRound r.w).toNat := by
    unfold toUint32; rw [Int.emod_eq_of_lt hwnn hwlt]
  have huh : toUint32 (jsRound r.h) = (jsRound r.h).toNat := by
    unfold toUint32; rw [Int.emod_eq_of_lt hhnn hhlt]
  have hguard : ¬ (r.w = 0 ∨ r.h = 0) := by
    rintro (h0 | h0) <;> [exact absurd h0 (by linarith); exact absurd h0 (by linarith)]
  have hstate : applyCrop s (some r)
      = commitEdit s
          (s.layers.map fun l =>
            { l with canvas := cropSurf l.canvas (jsRound r.x) (jsRound r.y) (toUint32 (jsRound r.w)) (toUint32 (jsRound r.h)) })
          (toUint32 (jsRound r.w)) (toUint32 (jsRound r.h)) s.activeLayerId s.nextId := by
    simp only [applyCrop]
    rw [if_neg hguard]
  constructor
  · rw [hstate, huw, huh]
    rfl
  · intro k l hk
    refine ⟨{ l with canvas := cropSurf l.canvas (jsRound r.x) (jsRound r.y) (toUint32 (jsRound r.w)) (toUint32 (jsRound r.h)) }, ?_, ?_, ?_, ?_⟩
    · rw [hstate]
      show (s.layers.map _).get? k = _
      rw [List.get?_map, hk]
      rfl
    · show toUint32 (jsRound r.w) = _
      exact huw
    · show toUint32 (jsRound r.h) = _
      exact huh
    · intro i j hi hj
      rw [huw, huh]
      exact cropSurf_getPixel l.canvas (jsRound r.x) (jsRound r.y) _ _ i j hi hj

theorem C4_crop_geometry_witness :
    (0 : ℚ) < 2 ∧ (0 : ℚ) < 1 ∧
    (applyCrop (initEditor 4 4 [⟨1, 0, 0, 1⟩, ⟨2, 0, 0, 1⟩]) (some ⟨1, 0, 2, 1⟩)).canvasSize
      = ((jsRound 2).toNat, (jsRound 1).toNat) ∧
    ∀ k l, (initEditor 4 4 [⟨1, 0, 0, 1⟩, ⟨2, 0, 0, 1⟩]).layers.get? k = some l →
      ∃ l', (applyCrop (initEditor 4 4 [⟨1, 0, 0, 1⟩, ⟨2, 0, 0, 1⟩])
          (some ⟨1, 0, 2, 1⟩)).layers.get? k = some l' ∧
        l'.canvas.width = (jsRound 2).toNat ∧
        l'.canvas.height = (jsRound 1).toNat ∧
        ∀ i j : ℕ, i < (jsRound 2).toNat → j < (jsRound 1).toNat →
          l'.canvas.getPixel i j = l.canvas.getPixel (jsRound 1 + i) (jsRound 0 + j) :=
  ⟨by norm_num, by norm_num,
    (C4_crop_geometry (initEditor 4 4 [⟨1, 0, 0, 1⟩, ⟨2, 0, 0, 1⟩]) ⟨1, 0, 2, 1⟩
      (by norm_num) (by norm_num) (by norm_num) (by norm_num)).1,
    (C4_crop_geometry (initEditor 4 4 [⟨1, 0, 0, 1⟩, ⟨2, 0, 0, 1⟩]) ⟨1, 0, 2, 1⟩
      (by norm_num) (by norm_num) (by norm_num) (by norm_num)).2⟩

/-! ### Claim C3 -/

/-- saveHistory written out by branch, for case analysis. -/
lemma saveHistory_def (s : EditorState) (L : List Layer) (w h : ℕ) :
    saveHistory s L w h =
      if 10 < (s.history.take (s.historyStep + 1) ++ [(⟨L.map snapLayer, (w, h)⟩ : HistoryState)]).length then
        { s with history := (s.history.take (s.historyStep + 1) ++ [(⟨L.map snapLayer, (w, h)⟩ : HistoryState)]).drop 1 }
      else
        { s with history := s.history.take (s.historyStep + 1) ++ [(⟨L.map snapLayer, (w, h)⟩ : HistoryState)], historyStep := s.historyStep + 1 } := by
  by_cases hc : 10 <
      (s.history.take (s.historyStep + 1) ++ [(⟨L.map snapLayer, (w, h)⟩ : HistoryState)]).length
  all_goals simp only [saveHistory, hc, if_true, if_false]

/-- Every evictChain state is reachable. -/
lemma reachable_evictChain : ∀ n, Reachable (evictChain n)
  | 0 => Reachable.init 1 1 [⟨0, 0, 0, 1⟩]
  | n + 1 => Reachable.stroke _ (reachable_evictChain n)

/-- C3: the history stack length never exceeds the bound 10 and the step
pointer stays strictly below it (so it never advances past the cap);
pushing a snapshot keeps only entries at or before the step pointer plus
the new snapshot (redo-branch truncation); pushing onto a full stack whose
pointer is at the end evicts the oldest entry and leaves the pointer
fixed; and concretely, after the initial snapshot plus ten further
snapshotting strokes the initial snapshot has been evicted, and repeated
undo bottoms out at the oldest retained state (the first stroke), not the
original document. -/
theorem C3_history_bounded_truncating :
    (∀ s : EditorState, Reachable s →
        s.history.length ≤ 10 ∧ s.historyStep < s.history.length) ∧
    (∀ (s : EditorState) (L : List Layer) (w h : ℕ),
        ∀ x ∈ (saveHistory s L w h).history,
          x ∈ s.history.take (s.historyStep + 1) ∨ x = ⟨L.map snapLayer, (w, h)⟩) ∧
    (∀ (s : EditorState) (L : List Layer) (w h : ℕ),
        s.historyStep + 1 = s.history.length → s.history.length = 10 →
          (saveHistory s L w h).history
              = s.history.drop 1 ++ [⟨L.map snapLayer, (w, h)⟩] ∧
            (saveHistory s L w h).historyStep = s.historyStep) ∧
    ((evictChain 10).history.length = 10 ∧ (evictChain 10).historyStep = 9 ∧
      (⟨[⟨0, "Background", true, 1, BlendMode.sourceOver, ⟨1, 1, [⟨0, 0, 0, 1⟩]⟩⟩],
          (1, 1)⟩ : HistoryState) ∉ (evictChain 10).history ∧
      (undoN 15 (evictChain 10)).layers.map (fun l => l.canvas.data) = [[⟨1, 0, 0, 1⟩]] ∧
      (undoN 15 (evictChain 10)).layers.map (fun l => l.canvas.data) ≠ [[⟨0, 0, 0, 1⟩]] ∧
      (undoN 15 (evictChain 10)).historyStep = 0) := by
  refine ⟨?_, ?_, ?_, by decide⟩
  · intro s hs
    exact ⟨(reachable_inv hs).histLen, (reachable_inv hs).stepLt⟩
  · intro s L w h x hx
    rw [saveHistory_def] at hx
    by_cases hc : 10 <
        (s.history.take (s.historyStep + 1) ++ [(⟨L.map snapLayer, (w, h)⟩ : HistoryState)]).length
    all_goals simp only [hc, if_true, if_false] at hx
    · have hx' := List.mem_of_mem_drop hx
      rcases List.mem_append.1 hx' with h' | h'
      · exact Or.inl h'
      · exact Or.inr (List.mem_singleton.1 h')
    · rcases List.mem_append.1 hx with h' | h'
      · exact Or.inl h'
      · exact Or.inr (List.mem_singleton.1 h')
  · intro s L w h hstep hlen
    have htake : s.history.take (s.historyStep + 1) = s.history := by
      rw [hstep]
      exact List.take_length _
    have hc : 10 <
        (s.history.take (s.historyStep + 1) ++ [(⟨L.map snapLayer, (w, h)⟩ : HistoryState)]).length := by
      rw [htake]
      simp [hlen]
    rw [saveHistory_def, if_pos hc]
    constructor
    · show (s.history.take (s.historyStep + 1) ++
          [(⟨L.map snapLayer, (w, h)⟩ : HistoryState)]).drop 1 = _
      rw [htake, List.drop_append_of_le_length (by omega)]
    · rfl

theorem C3_history_bounded_truncating_witness :
    ((evictChain 9).history.length ≤ 10 ∧
      (evictChain 9).historyStep < (evictChain 9).history.length) ∧
    ((saveHistory (evictChain 9) (evictChain 9).layers 1 1).history
        = (evictChain 9).history.drop 1
            ++ [⟨(evictChain 9).layers.map snapLayer, (1, 1)⟩] ∧
      (saveHistory (evictChain 9) (evictChain 9).layers 1 1).historyStep
        = (evictChain 9).historyStep) :=
  ⟨C3_history_bounded_truncating.1 _ (reachable_evictChain 9),
   C3_history_bounded_truncating.2.2.1 _ _ _ _ (by decide) (by decide)⟩

/-! ### Claim C1 -/

lemma restoreHistoryStep_history (t : EditorState) (k : ℕ) :
    (restoreHistoryStep t k).history = t.history := by
  unfold restoreHistoryStep
  cases t.history.get? k <;> rfl

/-- Restoring an index whose entry snapshots the layer list M at size sz
reinstates exactly M and sz. -/
lemma restoreHistoryStep_fields {t : EditorState} {k : ℕ} {M : List Layer} {sz : ℕ × ℕ}
    (hk : t.history.get? k = some ⟨M.map snapLayer, sz⟩) :
    (restoreHistoryStep t k).layers = M ∧ (restoreHistoryStep t k).canvasSize = sz := by
  unfold restoreHistoryStep
  rw [hk]
  refine ⟨?_, rfl⟩
  show (M.map snapLayer).map restoreLayer = M
  rw [List.map_map, show restoreLayer ∘ snapLayer = id from rfl, List.map_id]

/-- C1 as stated is false at the boundary: on a reachable state whose step
pointer is already at the end of the history (here: right after an edit),
redo() is a no-op but the following undo() moves back one step, so
redo-then-undo does not return the pre-pair pixel buffers. -/
theorem C1_redo_undo_boundary_cex :
    (handleUndo (handleRedo c1State)).layers.map (fun l => l.canvas.data)
      ≠ c1State.layers.map (fun l => l.canvas.data) := by decide

/-- C1 amended: on every reachable state, undo-then-redo restores the
layer list (hence every pixel buffer bit-identically), the canvas size and
the step pointer, provided the undo actually moves the pointer (step > 0);
symmetrically redo-then-undo is an identity on those fields provided the
redo actually moves the pointer (step < length - 1).  When the first
operation of the pair is a boundary no-op the pair is not an identity (see
the counterexample). -/
theorem C1_undo_redo_roundtrip {s : EditorState} (h : Reachable s) :
    (0 < s.historyStep →
      (handleRedo (handleUndo s)).layers = s.layers ∧
      (handleRedo (handleUndo s)).canvasSize = s.canvasSize ∧
      (handleRedo (handleUndo s)).historyStep = s.historyStep) ∧
    (s.historyStep + 1 < s.history.length →
      (handleUndo (handleRedo s)).layers = s.layers ∧
      (handleUndo (handleRedo s)).canvasSize = s.canvasSize ∧
      (handleUndo (handleRedo s)).historyStep = s.historyStep) := by
  have inv := reachable_inv h
  have hsl := inv.stepLt
  constructor
  · intro hpos
    have hu : handleUndo s
        = { restoreHistoryStep s (s.historyStep - 1) with
            historyStep := s.historyStep - 1 } := by
      unfold handleUndo
      rw [if_pos hpos]
    have hhist : (handleUndo s).history = s.history := by
      rw [hu]
      exact restoreHistoryStep_history s _
    have hstep : (handleUndo s).historyStep = s.historyStep - 1 := by rw [hu]
    have hguard : (handleUndo s).historyStep + 1 < (handleUndo s).history.length := by
      rw [hstep, hhist]; omega
    have hrr : handleRedo (handleUndo s)
        = { restoreHistoryStep (handleUndo s) ((handleUndo s).historyStep + 1) with
            historyStep := (handleUndo s).historyStep + 1 } := by
      unfold handleRedo
      rw [if_pos hguard]
    have hidx : (handleUndo s).historyStep + 1 = s.historyStep := by
      rw [hstep]; omega
    have hcur : (handleUndo s).history.get? s.historyStep
        = some ⟨s.layers.map snapLayer, s.canvasSize⟩ := by
      rw [hhist]; exact inv.current
    obtain ⟨hl, hc⟩ := restoreHistoryStep_fields hcur
    rw [hrr, hidx]
    exact ⟨hl, hc, rfl⟩
  · intro hlt2
    have hrr : handleRedo s
        = { restoreHistoryStep s (s.historyStep + 1) with
            historyStep := s.historyStep + 1 } := by
      unfold handleRedo
      rw [if_pos hlt2]
    have hhist : (handleRedo s).history = s.history := by
      rw [hrr]
      exact restoreHistoryStep_history s _
    have hstep : (handleRedo s).historyStep = s.historyStep + 1 := by rw [hrr]
    have hguard : 0 < (handleRedo s).historyStep := by rw [hstep]; omega
    have hu : handleUndo (handleRedo s)
        = { restoreHistoryStep (handleRedo s) ((handleRedo s).historyStep - 1) with
            historyStep := (handleRedo s).historyStep - 1 } := by
      unfold handleUndo
      rw [if_pos hguard]
    have hidx : (handleRedo s).historyStep - 1 = s.historyStep := by
      rw [hstep]
      omega
    have hcur : (handleRedo s).history.get? s.historyStep
        = some ⟨s.layers.map snapLayer, s.canvasSize⟩ := by
      rw [hhist]; exact inv.current
    obtain ⟨hl, hc⟩ := restoreHistoryStep_fields hcur
    rw [hu, hidx]
    exact ⟨hl, hc, rfl⟩

theorem C1_undo_redo_roundtrip_witness :
    0 < c1State.historyStep ∧
    ((handleRedo (handleUndo c1State)).layers = c1State.layers ∧
      (handleRedo (handleUndo c1State)).canvasSize = c1State.canvasSize ∧
      (handleRedo (handleUndo c1State)).historyStep = c1State.historyStep) :=
  ⟨by decide,
   (C1_undo_redo_roundtrip
      (Reachable.stroke [⟨1, 0, 0, 1⟩] (Reachable.init 1 1 [⟨0, 0, 0, 1⟩]))).1 (by decide)⟩

/-! ### Claim C2 -/

/-- The compositor fold is determined by the per-layer inputs it reads. -/
lemma compositeAt_congr (bf : BlendMode → ℚ → Pixel → Pixel → Pixel)
    (a1 a2 : Option ℕ) (p1 p2 : Option BlendMode) (x y : ℤ) :
    ∀ (L1 L2 : List Layer),
      L1.map (compositeInputs a1 p1) = L2.map (compositeInputs a2 p2) →
      ∀ acc : Pixel,
      L1.foldl (fun acc l =>
          if l.visible then bf (effectiveBlend a1 p1 l) l.opacity acc (l.canvas.getPixel x y)
          else acc) acc
        = L2.foldl (fun acc l =>
          if l.visible then bf (effectiveBlend a2 p2 l) l.opacity acc (l.canvas.getPixel x y)
          else acc) acc := by
  intro L1
  induction L1 with
  | nil =>
      intro L2 hmap acc
      cases L2 with
      | nil => rfl
      | cons _ _ => exact absurd hmap (by simp)
  | cons l1 t1 ih =>
      intro L2 hmap acc
      cases L2 with
      | nil => exact absurd hmap (by simp)
      | cons l2 t2 =>
          simp only [List.map_cons, List.cons.injEq] at hmap
          obtain ⟨hhead, htail⟩ := hmap
          unfold compositeInputs at hhead
          simp only [Prod.mk.injEq] at hhead
          obtain ⟨hv, ho, hb, hcn⟩ := hhead
          simp only [List.foldl_cons]
          rw [hv, ho, hb, hcn]
          exact ih t2 htail _

/-- C2: the compositor is deterministic in exactly the inputs the claim
lists — canvas size and, per layer, visibility, opacity, effective blend
mode (the stored mode, or the preview mode on the active layer) and the
pixel buffer.  Two documents agreeing on these produce bit-identical
output buffers under any fixed compositing primitive bf, so in particular
running the compositor twice on an unchanged document (a special case with
L1 = L2) yields bit-identical buffers. -/
theorem C2_compose_deterministic (bf : BlendMode → ℚ → Pixel → Pixel → Pixel)
    (L1 L2 : List Layer) (a1 a2 : Option ℕ) (p1 p2 : Option BlendMode) (w h : ℕ)
    (hinputs : L1.map (compositeInputs a1 p1) = L2.map (compositeInputs a2 p2)) :
    renderCompositeCanvas bf L1 a1 p1 w h = renderCompositeCanvas bf L2 a2 p2 w h := by
  unfold renderCompositeCanvas
  congr 1
  refine List.map_congr_left fun k _ => ?_
  unfold compositeAt
  exact compositeAt_congr bf a1 a2 p1 p2 _ _ L1 L2 hinputs transparent

theorem C2_compose_deterministic_witness :
    c2DocA.map (compositeInputs (some 0) none) = c2DocB.map (compositeInputs none none) ∧
    renderCompositeCanvas bfSourceOver c2DocA (some 0) none 1 1
      = renderCompositeCanvas bfSourceOver c2DocB none none 1 1 :=
  ⟨by decide,
   C2_compose_deterministic bfSourceOver c2DocA c2DocB (some 0) none none none 1 1 (by decide)⟩

/-! ### Claim C5 -/

/-- The center of a brush footprint lies in the footprint. -/
lemma inFootprint_center (shape : BrushShape) (size : ℚ) (hsize : 0 ≤ size) (p : ℤ × ℤ) :
    inFootprint shape size p (p.1, p.2) = true := by
  cases shape with
  | round =>
      simp only [inFootprint, decide_eq_true_iff, sub_self, Int.cast_zero]
      rw [zero_pow (by omega), zero_add]
      positivity
  | square =>
      simp only [inFootprint, decide_eq_true_iff, sub_self, Int.cast_zero, abs_zero]
      constructor <;> positivity

lemma scaleAlpha_one (p : Pixel) : scaleAlpha 1 p = p := by
  cases p
  simp [scaleAlpha]

/-- Source-over with a fully opaque source replaces the destination. -/
lemma over_opaque (src dst : Pixel) (h : src.a = 1) : over src dst = src := by
  cases src with
  | mk r g b a =>
      cases dst with
      | mk r2 g2 b2 a2 =>
          simp only at h
          subst h
          simp only [over]
          norm_num

/-- The pixel at the sample point after one clone dab: the composite pixel
at the sample point plus the offset, drawn source-over under flow / 100
onto the layer (assuming the sample point is on the layer and the source
read is inside the composite). -/
lemma paintClone_center (c lay : Surface) (off p : ℤ × ℤ) (shape : BrushShape)
    (size flow : ℚ) (hsize : 0 ≤ size)
    (hx0 : 0 ≤ p.1) (hx1 : p.1 < (lay.width : ℤ))
    (hy0 : 0 ≤ p.2) (hy1 : p.2 < (lay.height : ℤ))
    (hb : inBounds c (p.1 + off.1) (p.2 + off.2) = true) :
    (paintClone c off shape size flow lay p).getPixel p.1 p.2
      = over (scaleAlpha (flow / 100) (c.getPixel (p.1 + off.1) (p.2 + off.2)))
          (lay.getPixel p.1 p.2) := by
  show Surface.getPixel ⟨lay.width, lay.height, _⟩ p.1 p.2 = _
  unfold Surface.getPixel
  rw [if_pos ⟨hx0, hx1, hy0, hy1⟩]
  have hiw : p.1.toNat < lay.width := by omega
  have hjh : p.2.toNat < lay.height := by omega
  have hgrid := getD_grid lay.width lay.height
      (fun a b =>
        if inFootprint shape size p ((a : ℤ), (b : ℤ)) &&
            inBounds c ((a : ℤ) + off.1) ((b : ℤ) + off.2) then
          over (scaleAlpha (flow / 100) (c.getPixel ((a : ℤ) + off.1) ((b : ℤ) + off.2)))
            (lay.getPixel a b)
        else lay.getPixel a b)
      transparent p.1.toNat p.2.toNat hiw hjh
  refine hgrid.trans ?_
  have e1 : ((p.1.toNat : ℤ)) = p.1 := Int.toNat_of_nonneg hx0
  have e2 : ((p.2.toNat : ℤ)) = p.2 := Int.toNat_of_nonneg hy0
  simp only [e1, e2, inFootprint_center shape size hsize p, hb, Bool.and_self, if_true]
  rfl

lemma foldl_cloneMove_off (shape : BrushShape) (size flow : ℚ) :
    ∀ (samples : List (Surface × (ℤ × ℤ))) (st : CloneStroke),
      (samples.foldl (clonePointerMove shape size flow) st).off = st.off
  | [], _ => rfl
  | sp :: rest, st => by
      rw [List.foldl_cons, foldl_cloneMove_off shape size flow rest _]
      rfl

/-- C5: once a clone source S is set, the stroke offset is fixed at S
minus the first paint point for the whole stroke (the offset reference is
written only at pointer-down); and each paint sample at a point P copies
the current composite at P plus the offset onto the active layer at P —
at the sample point itself (the footprint center), with full flow and an
opaque composite pixel, the layer pixel becomes exactly the composite
pixel at P + offset. -/
theorem C5_clone_offset_and_copy (source p0 : ℤ × ℤ) (composite layer : Surface)
    (shape : BrushShape) (size : ℚ) (hsize : 0 < size)
    (samples : List (Surface × (ℤ × ℤ))) :
    ((cloneStrokeRun composite source shape size 100 layer p0 samples).off
        = (source.1 - p0.1, source.2 - p0.2)) ∧
    (∀ (c lay : Surface) (off p : ℤ × ℤ),
      0 ≤ p.1 → p.1 < (lay.width : ℤ) → 0 ≤ p.2 → p.2 < (lay.height : ℤ) →
      0 ≤ p.1 + off.1 → p.1 + off.1 < (c.width : ℤ) →
      0 ≤ p.2 + off.2 → p.2 + off.2 < (c.height : ℤ) →
      (c.getPixel (p.1 + off.1) (p.2 + off.2)).a = 1 →
      (clonePointerMove shape size 100 ⟨off, lay⟩ (c, p)).layer.getPixel p.1 p.2
        = c.getPixel (p.1 + off.1) (p.2 + off.2)) := by
  constructor
  · unfold cloneStrokeRun
    rw [foldl_cloneMove_off]
    rfl
  · intro c lay off p hx0 hx1 hy0 hy1 hsx0 hsx1 hsy0 hsy1 halpha
    have hb : inBounds c (p.1 + off.1) (p.2 + off.2) = true := by
      simp only [inBounds, decide_eq_true_iff]
      exact ⟨hsx0, hsx1, hsy0, hsy1⟩
    show (paintClone c off shape size 100 lay p).getPixel p.1 p.2 = _
    rw [paintClone_center c lay off p shape size 100 (le_of_lt hsize) hx0 hx1 hy0 hy1 hb]
    rw [show (100 : ℚ) / 100 = 1 by norm_num, scaleAlpha_one]
    exact over_opaque _ _ halpha

theorem C5_clone_offset_and_copy_witness :
    ((cloneStrokeRun compC5 (10, 10) BrushShape.round 10 100 layC5 (30, 30) []).off
        = (-20, -20)) ∧
    ((clonePointerMove BrushShape.round 10 100 ⟨(-20, -20), layC5⟩
        (compC5, (40, 40))).layer.getPixel 40 40 = compC5.getPixel 20 20) := by
  have h := C5_clone_offset_and_copy (10, 10) (30, 30) compC5 layC5 BrushShape.round 10
      (by norm_num) []
  constructor
  · rw [h.1]
    decide
  · have h2 := h.2 compC5 layC5 (-20, -20) (40, 40)
      (by decide) (by decide) (by decide) (by decide)
      (by decide) (by decide) (by decide) (by decide) (by decide)
    have e : (40 : ℤ) + -20 = 20 := by decide
    rw [e] at h2
    exact h2

/-! ### Claim C6 -/

lemma rotVec_rotVec (θ φ : ℝ) (v : ℝ × ℝ) : rotVec θ (rotVec φ v) = rotVec (θ + φ) v := by
  unfold rotVec rotStep
  simp only [Real.cos_add, Real.sin_add, Prod.mk.injEq]
  constructor <;> ring

lemma radialPoints_length (c : ℝ × ℝ) (cs sn : ℝ) :
    ∀ (n : ℕ) (d : ℝ × ℝ), (radialPoints c cs sn n d).length = n
  | 0, _ => rfl
  | n + 1, d => by
      show (_ :: radialPoints c cs sn n _).length = n + 1
      rw [List.length_cons, radialPoints_length c cs sn n _]

/-- The k-th pushed point of the radial loop is the center plus the
(k+1)-fold rotation of the starting offset. -/
lemma radialPoints_get? (c : ℝ × ℝ) (θ : ℝ) :
    ∀ (n k : ℕ) (d : ℝ × ℝ), k < n →
      (radialPoints c (Real.cos θ) (Real.sin θ) n d).get? k
        = some (c.1 + (rotVec (((k : ℝ) + 1) * θ) d).1,
                c.2 + (rotVec (((k : ℝ) + 1) * θ) d).2)
  | n + 1, 0, d, _ => by
      rw [show (((0 : ℕ) : ℝ) + 1) * θ = θ by push_cast; ring]
      rfl
  | n + 1, k + 1, d, hk => by
      show (radialPoints c (Real.cos θ) (Real.sin θ) n
          (rotStep (Real.cos θ) (Real.sin θ) d)).get? k = _
      rw [radialPoints_get? c θ n k _ (by omega)]
      rw [show rotStep (Real.cos θ) (Real.sin θ) d = rotVec θ d from rfl, rotVec_rotVec]
      rw [show ((k : ℝ) + 1) * θ + θ = (((k + 1 : ℕ) : ℝ) + 1) * θ by push_cast; ring]

/-- Rotation about a point preserves the squared distance to that point. -/
lemma dist2_rotAbout (c : ℝ × ℝ) (α : ℝ) (p : ℝ × ℝ) :
    dist2 (rotAbout c α p) c = dist2 p c := by
  unfold dist2 rotAbout
  have h := Real.sin_sq_add_cos_sq α
  linear_combination ((p.1 - c.1) ^ 2 + (p.2 - c.2) ^ 2) * h

/-- C6: radial symmetry with N = 4 produces exactly 4 points; each is at
the same (squared, hence the same) Euclidean distance from the canvas
center as the input point; and the k-th point is the input point rotated
about the center by k successive rotations of 360/N = 90 degrees
(k times 2 pi / 4 radians). -/
theorem C6_radial_symmetry (cw ch : ℝ) (p : ℝ × ℝ) (hp : p ≠ (cw / 2, ch / 2)) :
    (getSymmetricPoints SymmetryMode.radial 4 cw ch p.1 p.2).length = 4 ∧
    (∀ q ∈ getSymmetricPoints SymmetryMode.radial 4 cw ch p.1 p.2,
      dist2 q (cw / 2, ch / 2) = dist2 p (cw / 2, ch / 2)) ∧
    (∀ k : ℕ, k < 4 →
      (getSymmetricPoints SymmetryMode.radial 4 cw ch p.1 p.2).get? k
        = some (rotAbout (cw / 2, ch / 2) (k * (2 * Real.pi / 4)) p)) := by
  have hpts : getSymmetricPoints SymmetryMode.radial 4 cw ch p.1 p.2
      = (p.1, p.2) ::
        radialPoints (cw / 2, ch / 2) (Real.cos (2 * Real.pi / ((4 : ℕ) : ℝ)))
          (Real.sin (2 * Real.pi / ((4 : ℕ) : ℝ))) 3 (p.1 - cw / 2, p.2 - ch / 2) := rfl
  have hθ : (2 * Real.pi / ((4 : ℕ) : ℝ)) = 2 * Real.pi / 4 := by norm_num
  rw [hθ] at hpts
  have h1 : (getSymmetricPoints SymmetryMode.radial 4 cw ch p.1 p.2).length = 4 := by
    rw [hpts, List.length_cons, radialPoints_length]
  have h3 : ∀ k : ℕ, k < 4 →
      (getSymmetricPoints SymmetryMode.radial 4 cw ch p.1 p.2).get? k
        = some (rotAbout (cw / 2, ch / 2) (k * (2 * Real.pi / 4)) p) := by
    intro k hk
    rw [hpts]
    match k, hk with
    | 0, _ =>
        rw [show (((0 : ℕ) : ℝ)) * (2 * Real.pi / 4) = 0 by push_cast; ring]
        unfold rotAbout
        simp only [List.get?, Real.cos_zero, Real.sin_zero, mul_one, mul_zero, sub_zero,
          add_zero, Option.some.injEq, Prod.mk.injEq]
        constructor <;> ring
    | (k + 1), hk =>
        show (radialPoints (cw / 2, ch / 2) (Real.cos (2 * Real.pi / 4))
            (Real.sin (2 * Real.pi / 4)) 3 (p.1 - cw / 2, p.2 - ch / 2)).get? k = _
        rw [radialPoints_get? (cw / 2, ch / 2) (2 * Real.pi / 4) 3 k _ (by omega)]
        rw [show ((k : ℝ) + 1) * (2 * Real.pi / 4)
            = (((k + 1 : ℕ)) : ℝ) * (2 * Real.pi / 4) by push_cast; ring]
        unfold rotAbout rotVec rotStep
        simp only [Option.some.injEq, Prod.mk.injEq]
        constructor <;> ring
  have h2 : ∀ q ∈ getSymmetricPoints SymmetryMode.radial 4 cw ch p.1 p.2,
      dist2 q (cw / 2, ch / 2) = dist2 p (cw / 2, ch / 2) := by
    intro q hq
    obtain ⟨k, hk⟩ := List.mem_iff_get?.1 hq
    have hklt : k < 4 := by
      by_contra hge
      rw [List.get?_eq_none.2 (by rw [h1]; omega)] at hk
      exact Option.noConfusion hk
    have := h3 k hklt
    rw [this] at hk
    have hq' : q = rotAbout (cw / 2, ch / 2) (k * (2 * Real.pi / 4)) p :=
      (Option.some.injEq _ _ ▸ hk).symm
    rw [hq']
    exact dist2_rotAbout _ _ _
  exact ⟨h1, h2, h3⟩

theorem C6_radial_symmetry_witness :
    ((2 : ℝ), (1 : ℝ)) ≠ ((2 : ℝ) / 2, (2 : ℝ) / 2) ∧
    ((getSymmetricPoints SymmetryMode.radial 4 2 2 2 1).length = 4 ∧
      (∀ q ∈ getSymmetricPoints SymmetryMode.radial 4 2 2 2 1,
        dist2 q (2 / 2, 2 / 2) = dist2 (2, 1) (2 / 2, 2 / 2)) ∧
      (∀ k : ℕ, k < 4 →
        (getSymmetricPoints SymmetryMode.radial 4 2 2 2 1).get? k
          = some (rotAbout (2 / 2, 2 / 2) (k * (2 * Real.pi / 4)) (2, 1)))) :=
  ⟨by norm_num [Prod.ext_iff], C6_radial_symmetry 2 2 (2, 1) (by norm_num [Prod.ext_iff])⟩

end MagicLens
